import Mathlib

/-!
Shallow embedding of `src/database.js` (GRIITXDatabase): the stock ledger
(`setProductStock`, `updateSizeStock`), the fulfillment checker
(`canFulfill`), the reservation coordinator (`reserveStock`), persistence
(`saveStock`, `saveData`, modelling `localStorage`), and the preorder
ledger (`addPreorder`, `getAllPreorders`).

Modelling conventions:
- JS numbers that the source always passes through `parseInt(x, 10) || 0`
  are modelled as `Int` (the value after numeric coercion); `NaN || 0`
  collapses to `0`, so every coerced value is an integer.
- The in-memory stock object `this.stock` is modelled as a total function
  `String → Size → Int`: every read in the source goes through
  `ensureProductStock` / `(s[sz] || 0)`, which default absent entries to
  `0`, so lazy materialization of an all-zero record is the identity here.
- `localStorage` is modelled by the `stockStore` / `dataStore` fields of
  `State`; a `saveStock` / `saveData` call copies the in-memory value into
  the store.  Whether the backend write succeeds is an input of each
  mutating operation (the `ok : Bool` parameter); on failure the source's
  `try/catch` swallows the error and returns `false`, which every caller
  ignores — the model reproduces exactly that.
-/

namespace GRX

/-- The four size keys carried by every stock record (`{S, M, L, XL}`). -/
inductive Size where
  | S
  | M
  | L
  | XL
deriving DecidableEq

/-- The source's size-key list `['S','M','L','XL']`. -/
def sizeList : List Size := [Size.S, Size.M, Size.L, Size.XL]

/-- Embeds `String(size).toUpperCase()` followed by the membership test
`['S','M','L','XL'].includes(key)`: the recognized size key, if any.
Upper-casing is applied character-wise (`Char.toUpper` agrees with the
JS `toUpperCase` on the ASCII keys at issue here). -/
def sizeOfString? (s : String) : Option Size :=
  match s.data.map Char.toUpper with
  | ['S'] => some Size.S
  | ['M'] => some Size.M
  | ['L'] => some Size.L
  | ['X', 'L'] => some Size.XL
  | _ => none

/-- An order line item `{ id, size, qty }` as consumed by `canFulfill` and
`reserveStock` (`qty` is the value after `parseInt(it.qty, 10) || 0`). -/
structure Item where
  id : String
  size : String
  qty : Int
deriving DecidableEq

/-- The result object of `reserveStock`: `{ ok:boolean, error?:string }`. -/
structure RRes where
  ok : Bool
  error : Option String
deriving DecidableEq

/-- A stored preorder record (the fields relevant to the order ledger:
`id`, the spread payload data, and `createdAt`). `createdAt` is the
timestamp, modelled as a natural number. -/
structure OrderRec where
  id : Nat
  name : String
  payload : List Item
  createdAt : Nat
deriving DecidableEq

/-- The caller-supplied part of a preorder (before `id`/`createdAt` are
assigned by `addPreorder`). -/
structure OrderData where
  name : String
  payload : List Item
deriving DecidableEq

/-- The mutable state of a `GRIITXDatabase` instance: in-memory stock
(`this.stock`) and preorders (`this.data`), plus the durable store
contents for both (`localStorage[stockKey]`, `localStorage[dbName]`). -/
structure State where
  stock : String → Size → Int
  stockStore : String → Size → Int
  data : List OrderRec
  dataStore : List OrderRec

/-- `saveStock()`: writes `this.stock` to the durable store; on backend
failure (`ok = false`) the `catch` swallows the error and returns `false`,
leaving the store untouched. -/
def saveStock (st : State) (ok : Bool) : Bool × State :=
  if ok then (true, { st with stockStore := st.stock }) else (false, st)

/-- `saveData()`: same as `saveStock` for the preorder collection. -/
def saveData (st : State) (ok : Bool) : Bool × State :=
  if ok then (true, { st with dataStore := st.data }) else (false, st)

/-- `ensureProductStock(productId)`: in the total-function model the
all-zero default is already the function's value, so this is the read of
the product's record. -/
def ensureProductStock (st : State) (productId : String) : Size → Int :=
  st.stock productId

/-- `getProductStock(productId)`: a copy of the current record. -/
def getProductStock (st : State) (productId : String) : Size → Int :=
  ensureProductStock st productId

/-- `new GRIITXDatabase()`: loads in-memory state from the durable store
(`loadStock` / `loadData`). -/
def mkDatabase (stockStore₀ : String → Size → Int) (dataStore₀ : List OrderRec) : State :=
  { stock := stockStore₀, stockStore := stockStore₀
    data := dataStore₀, dataStore := dataStore₀ }

/-- `setProductStock(productId, stockMap)`: each field is
`Math.max(0, parseInt(stockMap[sz] ?? current[sz], 10) || 0)` — a present
field (`some v`, with `v` the coerced proposed value) is clamped, a
missing field (`none`) falls back to the current stored value; the record
is persisted and returned. -/
def setProductStock (st : State) (productId : String) (stockMap : Size → Option Int)
    (ok : Bool) : (Size → Int) × State :=
  let current := ensureProductStock st productId
  let newRec : Size → Int := fun sz => max 0 ((stockMap sz).getD (current sz))
  let st' : State :=
    { st with stock := fun p z => if p = productId then newRec z else st.stock p z }
  let st'' := (saveStock st' ok).2
  (getProductStock st'' productId, st'')

/-- `updateSizeStock(productId, size, delta)`: upper-cases the size key,
returns `false` without touching anything if it is not one of the four
keys, otherwise stores `Math.max(0, stored + delta)`, persists and
returns `true`. -/
def updateSizeStock (st : State) (productId : String) (size : String) (delta : Int)
    (ok : Bool) : Bool × State :=
  match sizeOfString? size with
  | none => (false, st)
  | some key =>
      let s := ensureProductStock st productId
      let st' : State :=
        { st with stock := fun p z =>
            if p = productId ∧ z = key then max 0 (s key + delta) else st.stock p z }
      (true, (saveStock st' ok).2)

/-- The demand aggregate built by `canFulfill`'s `forEach` loop: total
quantity requested for `(pid, sz)`, where an item counts iff its `id`
matches and its upper-cased size key is recognized as `sz`. -/
def demandAt : List Item → String → Size → Int
  | [], _, _ => 0
  | it :: l, pid, sz =>
      (if it.id = pid ∧ sizeOfString? it.size = some sz then it.qty else 0)
        + demandAt l pid sz

/-- `canFulfill(payload)`: every product mentioned by some line item must
have, for each of the four size keys, stock at least the aggregated
demand (`(s[sz] || 0) >= (req[sz] || 0)`). -/
def canFulfill (st : State) (items : List Item) : Bool :=
  (items.map Item.id).all fun pid =>
    sizeList.all fun sz => decide (demandAt items pid sz ≤ st.stock pid sz)

/-- One iteration of `reserveStock`'s decrement loop: skip the item if its
upper-cased size key is invalid, otherwise store
`Math.max(0, (s[size] || 0) - qty)`. -/
def applyItem (stock : String → Size → Int) (it : Item) : String → Size → Int :=
  match sizeOfString? it.size with
  | none => stock
  | some key => fun p z =>
      if p = it.id ∧ z = key then max 0 (stock it.id key - it.qty) else stock p z

/-- `reserveStock(payload)`: returns `{ ok:false, error:'Insufficient
stock' }` without touching anything when `canFulfill` fails; otherwise
applies the decrement loop to every item, persists once, and returns
`{ ok:true }`. -/
def reserveStock (st : State) (items : List Item) (ok : Bool) : RRes × State :=
  if canFulfill st items then
    let newStock := items.foldl applyItem st.stock
    (⟨true, none⟩, (saveStock { st with stock := newStock } ok).2)
  else
    (⟨false, some "Insufficient stock"⟩, st)

/-- `addPreorder(preorder)`: builds the record with a generated `id` and
`createdAt` (both inputs of the model), prepends it to `this.data`
(`unshift`), persists, and returns the new record. -/
def addPreorder (st : State) (pre : OrderData) (idv : Nat) (now : Nat)
    (ok : Bool) : OrderRec × State :=
  let newPreorder : OrderRec := ⟨idv, pre.name, pre.payload, now⟩
  let st' : State := { st with data := newPreorder :: st.data }
  (newPreorder, (saveData st' ok).2)

/-- `getAllPreorders()`: a copy of `this.data`. -/
def getAllPreorders (st : State) : List OrderRec :=
  st.data

/-- One stock-mutating call, for reasoning about call sequences: the
operation together with the success of its backend write. -/
inductive Op where
  | set (productId : String) (stockMap : Size → Option Int) (ok : Bool)
  | adjust (productId : String) (size : String) (delta : Int) (ok : Bool)
  | reserve (items : List Item) (ok : Bool)

/-- The state after one stock-mutating call (results discarded). -/
def runOp (st : State) (op : Op) : State :=
  match op with
  | Op.set pid sm ok => (setProductStock st pid sm ok).2
  | Op.adjust pid size delta ok => (updateSizeStock st pid size delta ok).2
  | Op.reserve items ok => (reserveStock st items ok).2

/-- The state after a sequence of stock-mutating calls. -/
def runOps (st : State) (ops : List Op) : State :=
  ops.foldl runOp st

/-- One `addPreorder` call: its caller data, generated id, timestamp, and
backend-write success. -/
structure AddCall where
  pre : OrderData
  idv : Nat
  now : Nat
  ok : Bool

/-- The state after a sequence of `addPreorder` calls. -/
def runAdds (st : State) (adds : List AddCall) : State :=
  adds.foldl (fun s a => (addPreorder s a.pre a.idv a.now a.ok).2) st

/-! Concrete states and inputs used to instantiate the theorems. -/

/-- A fresh database over an empty durable store: every quantity `0`. -/
def stAllZero : State := mkDatabase (fun _ _ => 0) []

/-- A database whose every stored quantity is `2`. -/
def stAll2 : State := mkDatabase (fun _ _ => 2) []

/-- A database whose every stored quantity is `3`. -/
def stAll3 : State := mkDatabase (fun _ _ => 3) []

/-- A database whose every stored quantity is `5`. -/
def stAll5 : State := mkDatabase (fun _ _ => 5) []

/-- Durable stock holding exactly one unit: `{shirt: {S:1}}`, all else `0`. -/
def storeShirtS1 : String → Size → Int :=
  fun pid sz => if pid = "shirt" ∧ sz = Size.S then 1 else 0

/-- The stock record `{S:1, M:2, L:3, XL:4}` from the spec's clamp-not-zero
example. -/
def recS1M2L3XL4 : Size → Int :=
  fun sz =>
    match sz with
    | Size.S => 1
    | Size.M => 2
    | Size.L => 3
    | Size.XL => 4

/-- A database holding `{shirt: {S:1, M:2, L:3, XL:4}}`, all else `0`. -/
def stShirt1234 : State :=
  mkDatabase (fun pid sz => if pid = "shirt" then recS1M2L3XL4 sz else 0) []

/-- The partial update `{S: 5}` (other sizes absent). -/
def smS5 : Size → Option Int :=
  fun sz => match sz with | Size.S => some (5 : Int) | _ => none

/-- Modelled from the claim's words, for comparison with `sizeOfString?`:
a size string is recognized only when it equals one of the four keys
`"S"`, `"M"`, `"L"`, `"XL"` exactly, with no upper-case normalization. -/
def sizeOfLiteral? (s : String) : Option Size :=
  match s with
  | "S" => some Size.S
  | "M" => some Size.M
  | "L" => some Size.L
  | "XL" => some Size.XL
  | _ => none

/-- Modelled from the claim's words, for comparison with `demandAt`:
aggregated demand where unrecognized size strings (per `sizeOfLiteral?`,
i.e. anything but the four exact keys) are dropped. -/
def demandAtLiteral : List Item → String → Size → Int
  | [], _, _ => 0
  | it :: l, pid, sz =>
      (if it.id = pid ∧ sizeOfLiteral? it.size = some sz then it.qty else 0)
        + demandAtLiteral l pid sz

/-- The record that `addPreorder` builds and stores for one call. -/
def addedRec (a : AddCall) : OrderRec :=
  ⟨a.idv, a.pre.name, a.pre.payload, a.now⟩

/-- Three `addPreorder` calls with strictly increasing timestamps. -/
def adds3 : List AddCall :=
  [⟨⟨"ana", []⟩, 10, 1, true⟩, ⟨⟨"bob", []⟩, 11, 2, true⟩, ⟨⟨"caz", []⟩, 12, 3, true⟩]

/-- A first database instance (e.g. a browser tab) loaded from the durable
store holding one unit of `(shirt, S)`. -/
def sessionA : State := mkDatabase storeShirtS1 []

/-- A second, independent instance loaded from the same durable store
*before* the first instance wrote back — both in-memory copies see the
single unit. -/
def sessionB : State := mkDatabase storeShirtS1 []

/-! Helper lemmas. -/

theorem saveStock_stock (st : State) (ok : Bool) :
    ((saveStock st ok).2).stock = st.stock := by
  cases ok <;> rfl

theorem saveStock_data (st : State) (ok : Bool) :
    ((saveStock st ok).2).data = st.data := by
  cases ok <;> rfl

theorem saveData_stock (st : State) (ok : Bool) :
    ((saveData st ok).2).stock = st.stock := by
  cases ok <;> rfl

theorem saveData_data (st : State) (ok : Bool) :
    ((saveData st ok).2).data = st.data := by
  cases ok <;> rfl

theorem applyItem_nonneg (s : String → Size → Int) (it : Item)
    (h : ∀ p z, 0 ≤ s p z) : ∀ p z, 0 ≤ applyItem s it p z := by
  intro p z
  cases hs : sizeOfString? it.size with
  | none => simpa [applyItem, hs] using h p z
  | some key =>
      simp only [applyItem, hs]
      split
      · exact le_max_left 0 _
      · exact h p z

theorem foldl_applyItem_nonneg (items : List Item) :
    ∀ s : String → Size → Int, (∀ p z, 0 ≤ s p z) →
      ∀ p z, 0 ≤ (items.foldl applyItem s) p z := by
  induction items with
  | nil => intro s h p z; simpa using h p z
  | cons it l ih =>
      intro s h p z
      simp only [List.foldl_cons]
      exact ih _ (applyItem_nonneg s it h) p z

theorem setProductStock_stock_eq (st : State) (pid : String) (sm : Size → Option Int)
    (ok : Bool) : ∀ p z, ((setProductStock st pid sm ok).2).stock p z =
      if p = pid then max 0 ((sm z).getD (st.stock pid z)) else st.stock p z := by
  intro p z
  simp only [setProductStock, ensureProductStock, saveStock_stock]

theorem updateSizeStock_stock_eq (st : State) (pid : String) (size : String)
    (delta : Int) (ok : Bool) : ∀ p z, ((updateSizeStock st pid size delta ok).2).stock p z =
      match sizeOfString? size with
      | none => st.stock p z
      | some key =>
          if p = pid ∧ z = key then max 0 (st.stock pid key + delta) else st.stock p z := by
  intro p z
  cases hk : sizeOfString? size with
  | none => simp [updateSizeStock, hk]
  | some key => simp only [updateSizeStock, hk, ensureProductStock, saveStock_stock]

theorem runOp_nonneg (st : State) (op : Op) (h : ∀ p z, 0 ≤ st.stock p z) :
    ∀ p z, 0 ≤ (runOp st op).stock p z := by
  cases op with
  | set pid sm ok =>
      intro p z
      rw [runOp, setProductStock_stock_eq st pid sm ok p z]
      split
      · exact le_max_left 0 _
      · exact h p z
  | adjust pid size delta ok =>
      intro p z
      rw [runOp, updateSizeStock_stock_eq st pid size delta ok p z]
      cases hk : sizeOfString? size with
      | none => exact h p z
      | some key =>
          dsimp only
          split
          · exact le_max_left 0 _
          · exact h p z
  | reserve items ok =>
      intro p z
      by_cases hc : canFulfill st items
      · simp only [runOp, reserveStock, hc, if_true, saveStock_stock]
        exact foldl_applyItem_nonneg items st.stock h p z
      · simp only [runOp, reserveStock, hc, if_false, Bool.false_eq_true]
        exact h p z

theorem demandAt_nonneg (l : List Item) (pid : String) (sz : Size)
    (h : ∀ it ∈ l, 0 ≤ it.qty) : 0 ≤ demandAt l pid sz := by
  induction l with
  | nil => simp [demandAt]
  | cons it l ih =>
      simp only [demandAt]
      have h1 : 0 ≤ (if it.id = pid ∧ sizeOfString? it.size = some sz then it.qty else 0) := by
        split
        · exact h it (List.mem_cons_self it l)
        · exact le_refl 0
      exact add_nonneg h1 (ih fun x hx => h x (List.mem_cons_of_mem it hx))

theorem mem_of_demandAt_ne_zero (l : List Item) (pid : String) (sz : Size)
    (h : demandAt l pid sz ≠ 0) : pid ∈ l.map Item.id := by
  induction l with
  | nil => simp [demandAt] at h
  | cons it l ih =>
      by_cases hid : it.id = pid
      · subst hid
        exact List.mem_cons_self _ _
      · have he : demandAt (it :: l) pid sz = demandAt l pid sz := by
          simp only [demandAt]
          rw [if_neg fun hc => hid hc.1, zero_add]
        rw [he] at h
        exact List.mem_cons_of_mem _ (ih h)

theorem mem_sizeList (sz : Size) : sz ∈ sizeList := by
  cases sz <;> decide

theorem canFulfill_eq_true_iff (st : State) (items : List Item)
    (hnn : ∀ p z, 0 ≤ st.stock p z) :
    canFulfill st items = true ↔
      ∀ pid sz, 0 < demandAt items pid sz →
        demandAt items pid sz ≤ st.stock pid sz := by
  unfold canFulfill
  rw [List.all_eq_true]
  constructor
  · intro h pid sz hpos
    have hmem : pid ∈ items.map Item.id :=
      mem_of_demandAt_ne_zero items pid sz (ne_of_gt hpos)
    have h2 := h pid hmem
    rw [List.all_eq_true] at h2
    exact of_decide_eq_true (h2 sz (mem_sizeList sz))
  · intro h pid _
    rw [List.all_eq_true]
    intro sz _
    apply decide_eq_true
    by_cases hpos : 0 < demandAt items pid sz
    · exact h pid sz hpos
    · push_neg at hpos
      exact le_trans hpos (hnn pid sz)

theorem demandAt_append (l1 l2 : List Item) (pid : String) (sz : Size) :
    demandAt (l1 ++ l2) pid sz = demandAt l1 pid sz + demandAt l2 pid sz := by
  induction l1 with
  | nil => simp [demandAt]
  | cons it l ih =>
      simp only [List.cons_append, demandAt, List.append_eq, ih]
      ring

theorem foldl_applyItem_eq (items : List Item) :
    ∀ s : String → Size → Int,
      (∀ it ∈ items, 0 < it.qty) →
      (∀ it ∈ items, (sizeOfString? it.size).isSome = true) →
      (∀ pid sz, demandAt items pid sz ≤ s pid sz) →
      items.foldl applyItem s = fun pid sz => s pid sz - demandAt items pid sz := by
  induction items with
  | nil =>
      intro s _ _ _
      funext pid sz
      simp [demandAt]
  | cons it l ih =>
      intro s hq hv hd
      obtain ⟨key, hkey⟩ := Option.isSome_iff_exists.mp (hv it (List.mem_cons_self it l))
      have hqpos : 0 < it.qty := hq it (List.mem_cons_self it l)
      have hql : ∀ x ∈ l, 0 ≤ x.qty :=
        fun x hx => le_of_lt (hq x (List.mem_cons_of_mem it hx))
      have hdhead : demandAt (it :: l) it.id key = it.qty + demandAt l it.id key := by
        simp [demandAt, hkey]
      have hs_ge : it.qty + demandAt l it.id key ≤ s it.id key := by
        rw [← hdhead]
        exact hd it.id key
      have hdl_nonneg : 0 ≤ demandAt l it.id key := demandAt_nonneg l it.id key hql
      have hsub_nonneg : 0 ≤ s it.id key - it.qty := by linarith
      have happ : ∀ p z, applyItem s it p z =
          if p = it.id ∧ z = key then s it.id key - it.qty else s p z := by
        intro p z
        simp only [applyItem, hkey]
        split
        · exact max_eq_right hsub_nonneg
        · rfl
      have hhead0 : ∀ pid sz, ¬(pid = it.id ∧ sz = key) →
          (if it.id = pid ∧ sizeOfString? it.size = some sz then it.qty else 0) = 0 := by
        intro pid sz hc
        rw [if_neg]
        intro hcc
        rw [hkey] at hcc
        exact hc ⟨hcc.1.symm, (Option.some_inj.mp hcc.2).symm⟩
      have hd' : ∀ pid sz, demandAt l pid sz ≤ applyItem s it pid sz := by
        intro pid sz
        rw [happ pid sz]
        by_cases hc : pid = it.id ∧ sz = key
        · obtain ⟨hp, hz⟩ := hc
          subst hp
          subst hz
          rw [if_pos ⟨rfl, rfl⟩]
          linarith
        · rw [if_neg hc]
          have hdc := hd pid sz
          simp only [demandAt, hhead0 pid sz hc, zero_add] at hdc
          exact hdc
      have hIH := ih (applyItem s it)
        (fun x hx => hq x (List.mem_cons_of_mem it hx))
        (fun x hx => hv x (List.mem_cons_of_mem it hx)) hd'
      have hIH' : ∀ pid sz, (l.foldl applyItem (applyItem s it)) pid sz =
          applyItem s it pid sz - demandAt l pid sz := by
        intro pid sz
        rw [hIH]
      funext pid sz
      rw [List.foldl_cons, hIH' pid sz, happ pid sz]
      by_cases hc : pid = it.id ∧ sz = key
      · obtain ⟨hp, hz⟩ := hc
        subst hp
        subst hz
        rw [if_pos ⟨rfl, rfl⟩, hdhead]
        ring
      · rw [if_neg hc]
        simp only [demandAt, hhead0 pid sz hc, zero_add]

theorem runAdds_data (adds : List AddCall) :
    ∀ st : State, (runAdds st adds).data = (adds.map addedRec).reverse ++ st.data := by
  induction adds with
  | nil => intro st; simp [runAdds]
  | cons a l ih =>
      intro st
      have hstep : runAdds st (a :: l) = runAdds ((addPreorder st a.pre a.idv a.now a.ok).2) l := rfl
      have hdata : ((addPreorder st a.pre a.idv a.now a.ok).2).data = addedRec a :: st.data := by
        simp [addPreorder, saveData_data, addedRec]
      rw [hstep, ih, hdata]
      simp [List.reverse_cons, List.append_assoc]

/-! Claim theorems. -/

/-- Claim C1: if the payload is not fulfillable against the current stock,
`reserveStock` returns `{ ok: false, error: "Insufficient stock" }` and
returns the state exactly as it was — no decrement, no persistence, no
other change. -/
theorem reserveStock_insufficient_no_mutation (st : State) (items : List Item)
    (ok : Bool) (h : canFulfill st items = false) :
    reserveStock st items ok = (⟨false, some "Insufficient stock"⟩, st) := by
  simp [reserveStock, h]

/-- Witness for C1: with no stock at all, requesting one unit fails and the
state is returned untouched. -/
theorem reserveStock_insufficient_no_mutation_witness :
    canFulfill stAllZero [⟨"shirt", "S", 1⟩] = false ∧
      reserveStock stAllZero [⟨"shirt", "S", 1⟩] true =
        (⟨false, some "Insufficient stock"⟩, stAllZero) :=
  ⟨by decide, reserveStock_insufficient_no_mutation stAllZero [⟨"shirt", "S", 1⟩] true (by decide)⟩

/-- Claim C2: starting from a state whose every stored quantity is a
non-negative integer, any sequence of `setProductStock`, `updateSizeStock`
and `reserveStock` calls leaves every stored quantity of every product and
size non-negative. -/
theorem stock_nonneg_after_ops (ops : List Op) (st : State)
    (h : ∀ p z, 0 ≤ st.stock p z) : ∀ p z, 0 ≤ (runOps st ops).stock p z := by
  induction ops generalizing st with
  | nil => simpa [runOps] using h
  | cons op l ih =>
      simp only [runOps, List.foldl_cons]
      exact ih (runOp st op) (runOp_nonneg st op h)

/-- Counterexample to claim C5 as stated: for the payload
`[{id:"shirt", size:"s", qty:1}]` against empty stock, the claim's
aggregate (which drops the unrecognized size string `"s"`, since it is
not one of the four keys `S`, `M`, `L`, `XL`) has no pair with positive
demand, so the claim predicts fulfillable — but `canFulfill` upper-cases
the size key, counts the demand against `S`, and returns `false`. -/
theorem canFulfill_literal_counterexample :
    canFulfill stAllZero [⟨"shirt", "s", 1⟩] = false ∧
      ∀ pid sz, 0 < demandAtLiteral [⟨"shirt", "s", 1⟩] pid sz →
        demandAtLiteral [⟨"shirt", "s", 1⟩] pid sz ≤ stAllZero.stock pid sz := by
  constructor
  · decide
  · intro pid sz h
    exfalso
    have hs : sizeOfLiteral? "s" = none := by decide
    have h0 : demandAtLiteral [⟨"shirt", "s", 1⟩] pid sz = 0 := by
      simp [demandAtLiteral, hs]
    rw [h0] at h
    exact lt_irrefl 0 h

/-- Claim C5 (amended): with every stored quantity non-negative,
`canFulfill` returns true iff, for every `(productId, size)` pair with
positive aggregated demand — line items grouped by product id and
**upper-cased** size key, with size strings not recognized as one of
`S`, `M`, `L`, `XL` after upper-casing dropped from the aggregate —
the stored quantity is at least that demand.  (In particular an empty
item list is always fulfillable.) -/
theorem canFulfill_iff_demand_le_stock (st : State) (items : List Item)
    (hnn : ∀ p z, 0 ≤ st.stock p z) :
    canFulfill st items = true ↔
      ∀ pid sz, 0 < demandAt items pid sz →
        demandAt items pid sz ≤ st.stock pid sz :=
  canFulfill_eq_true_iff st items hnn

/-- Witness for C5 (amended): the empty payload is fulfillable against
the all-zero state. -/
theorem canFulfill_iff_demand_le_stock_witness :
    (∀ p z, 0 ≤ stAllZero.stock p z) ∧ canFulfill stAllZero [] = true :=
  ⟨fun _ _ => le_refl 0,
    (canFulfill_iff_demand_le_stock stAllZero [] (fun _ _ => le_refl 0)).mpr
      (fun _ _ h => absurd h (by simp [demandAt]))⟩

/-- Claim C3: when every line item has a recognized size key and positive
quantity and the payload is fulfillable, `reserveStock` returns
`{ ok: true }` and every `(productId, size)` quantity afterwards equals
its prior value minus the aggregated demand for that pair (so pairs with
no demand — other products, undemanded sizes — keep their prior value). -/
theorem reserveStock_fulfillable_decrements (st : State) (items : List Item)
    (ok : Bool) (hnn : ∀ p z, 0 ≤ st.stock p z)
    (hv : ∀ it ∈ items, (sizeOfString? it.size).isSome = true)
    (hq : ∀ it ∈ items, 0 < it.qty)
    (hful : canFulfill st items = true) :
    (reserveStock st items ok).1 = ⟨true, none⟩ ∧
      ∀ pid sz, ((reserveStock st items ok).2).stock pid sz =
        st.stock pid sz - demandAt items pid sz := by
  have hd : ∀ pid sz, demandAt items pid sz ≤ st.stock pid sz := by
    intro pid sz
    by_cases hpos : 0 < demandAt items pid sz
    · exact (canFulfill_eq_true_iff st items hnn).mp hful pid sz hpos
    · push_neg at hpos
      exact le_trans hpos (hnn pid sz)
  have hfold := foldl_applyItem_eq items st.stock hq hv hd
  constructor
  · simp [reserveStock, hful]
  · intro pid sz
    simp only [reserveStock, hful, if_true, saveStock_stock]
    rw [hfold]

/-- Witness for C3: all-3 stock, demand of 2 on `(shirt, S)`: reservation
succeeds and leaves exactly 1. -/
theorem reserveStock_fulfillable_decrements_witness :
    canFulfill stAll3 [⟨"shirt", "S", 2⟩] = true ∧
      (reserveStock stAll3 [⟨"shirt", "S", 2⟩] true).1 = ⟨true, none⟩ ∧
      ((reserveStock stAll3 [⟨"shirt", "S", 2⟩] true).2).stock "shirt" Size.S = 1 := by
  have h := reserveStock_fulfillable_decrements stAll3 [⟨"shirt", "S", 2⟩] true
    (fun _ _ => show (0 : Int) ≤ 3 by decide) (by decide) (by decide) (by decide)
  refine ⟨by decide, h.1, ?_⟩
  rw [h.2 "shirt" Size.S]
  decide

/-- Counterexample to claim C6 as stated: a line item with negative
quantity is not treated as zero demand.  With every stored quantity `2`,
adding the item `{shirt, S, -3}` to a payload demanding `S:5` flips
`canFulfill` from false to true (the `-3` offsets the aggregate), and
reserving the payload `[{shirt, S, -3}]` alone succeeds and *increases*
the stored quantity from 2 to 5. -/
theorem nonpositive_qty_counterexample :
    canFulfill stAll2 [⟨"shirt", "S", 5⟩, ⟨"shirt", "S", -3⟩] = true ∧
      canFulfill stAll2 [⟨"shirt", "S", 5⟩] = false ∧
      (reserveStock stAll2 [⟨"shirt", "S", -3⟩] true).1 = ⟨true, none⟩ ∧
      ((reserveStock stAll2 [⟨"shirt", "S", -3⟩] true).2).stock "shirt" Size.S = 5 :=
  ⟨by decide, by decide, by decide, by decide⟩

/-- Claim C6 (amended): a line item whose quantity is exactly zero
contributes zero demand — inserting it anywhere in a payload changes
neither the result of `canFulfill` nor the result and post-state of
`reserveStock` (given non-negative stock).  Items with negative quantity
are *not* treated as zero demand: they offset the aggregated demand and
increase the stored quantity on reserve. -/
theorem zero_qty_item_noop (st : State) (l1 l2 : List Item) (it : Item) (ok : Bool)
    (hq : it.qty = 0) (hnn : ∀ p z, 0 ≤ st.stock p z) :
    canFulfill st (l1 ++ it :: l2) = canFulfill st (l1 ++ l2) ∧
      reserveStock st (l1 ++ it :: l2) ok = reserveStock st (l1 ++ l2) ok := by
  have hDem : ∀ pid sz, demandAt (l1 ++ it :: l2) pid sz = demandAt (l1 ++ l2) pid sz := by
    intro pid sz
    rw [demandAt_append, demandAt_append]
    simp only [demandAt]
    have h0 : (if it.id = pid ∧ sizeOfString? it.size = some sz then it.qty else 0) = 0 := by
      split
      · exact hq
      · rfl
    rw [h0, zero_add]
  have hCF : canFulfill st (l1 ++ it :: l2) = canFulfill st (l1 ++ l2) := by
    have h1 := canFulfill_eq_true_iff st (l1 ++ it :: l2) hnn
    have h2 := canFulfill_eq_true_iff st (l1 ++ l2) hnn
    have hiff : canFulfill st (l1 ++ it :: l2) = true ↔ canFulfill st (l1 ++ l2) = true := by
      rw [h1, h2]
      constructor
      · intro h pid sz hpos
        rw [← hDem pid sz] at hpos ⊢
        exact h pid sz hpos
      · intro h pid sz hpos
        rw [hDem pid sz] at hpos ⊢
        exact h pid sz hpos
    cases hA : canFulfill st (l1 ++ it :: l2) <;> cases hB : canFulfill st (l1 ++ l2) <;>
      simp_all
  have hfold : (l1 ++ it :: l2).foldl applyItem st.stock =
      (l1 ++ l2).foldl applyItem st.stock := by
    rw [List.foldl_append, List.foldl_append, List.foldl_cons]
    have hnn1 := foldl_applyItem_nonneg l1 st.stock hnn
    have happ : applyItem (l1.foldl applyItem st.stock) it = l1.foldl applyItem st.stock := by
      funext p z
      cases hks : sizeOfString? it.size with
      | none => simp [applyItem, hks]
      | some key =>
          simp only [applyItem, hks]
          split
          · rename_i hcnd
            obtain ⟨hp, hz⟩ := hcnd
            subst hp
            subst hz
            rw [hq, sub_zero, max_eq_right (hnn1 it.id z)]
          · rfl
    rw [happ]
  constructor
  · exact hCF
  · simp only [reserveStock, hCF, hfold]

/-- Witness for C6 (amended): inserting the zero-quantity item
`{shirt, S, 0}` after `{shirt, S, 1}` changes nothing. -/
theorem zero_qty_item_noop_witness :
    (⟨"shirt", "S", 0⟩ : Item).qty = 0 ∧ (∀ p z, 0 ≤ stAll2.stock p z) ∧
      canFulfill stAll2 ([⟨"shirt", "S", 1⟩] ++ ⟨"shirt", "S", 0⟩ :: []) =
        canFulfill stAll2 ([⟨"shirt", "S", 1⟩] ++ []) ∧
      reserveStock stAll2 ([⟨"shirt", "S", 1⟩] ++ ⟨"shirt", "S", 0⟩ :: []) true =
        reserveStock stAll2 ([⟨"shirt", "S", 1⟩] ++ []) true := by
  have h := zero_qty_item_noop stAll2 [⟨"shirt", "S", 1⟩] [] ⟨"shirt", "S", 0⟩ true rfl
    (fun _ _ => show (0 : Int) ≤ 2 by decide)
  exact ⟨rfl, fun _ _ => show (0 : Int) ≤ 2 by decide, h.1, h.2⟩

/-- Claim C7: `setProductStock` stores, for each size key, the clamp
`max 0 v` of the coerced proposed value `v` when that field is present
and the previously stored value when it is missing, returns the stored
record, and leaves every other product unchanged (hypothesis: the
product's current quantities are non-negative, the ledger invariant). -/
theorem setProductStock_clamp_preserve (st : State) (pid : String)
    (sm : Size → Option Int) (ok : Bool) (hnn : ∀ sz, 0 ≤ st.stock pid sz) :
    (∀ sz, (setProductStock st pid sm ok).1 sz =
        match sm sz with
        | some v => max 0 v
        | none => st.stock pid sz) ∧
      ∀ p sz, ((setProductStock st pid sm ok).2).stock p sz =
        if p = pid then
          match sm sz with
          | some v => max 0 v
          | none => st.stock pid sz
        else st.stock p sz := by
  have key : ∀ z, max 0 ((sm z).getD (st.stock pid z)) =
      match sm z with
      | some v => max 0 v
      | none => st.stock pid z := by
    intro z
    cases hz : sm z with
    | none => simpa using max_eq_right (hnn z)
    | some v => rfl
  constructor
  · intro sz
    show ((setProductStock st pid sm ok).2).stock pid sz = _
    rw [setProductStock_stock_eq st pid sm ok pid sz, if_pos rfl, key sz]
  · intro p sz
    rw [setProductStock_stock_eq st pid sm ok p sz]
    by_cases hp : p = pid
    · rw [if_pos hp, if_pos hp, key sz]
    · rw [if_neg hp, if_neg hp]

/-- Witness for C7: the spec's clamp-not-zero example — `set(shirt, {S:5})`
on `{S:1, M:2, L:3, XL:4}` yields `{S:5, M:2, L:3, XL:4}`. -/
theorem setProductStock_clamp_preserve_witness :
    (∀ sz, 0 ≤ stShirt1234.stock "shirt" sz) ∧
      (setProductStock stShirt1234 "shirt" smS5 true).1 Size.S = 5 ∧
      (setProductStock stShirt1234 "shirt" smS5 true).1 Size.M = 2 ∧
      (setProductStock stShirt1234 "shirt" smS5 true).1 Size.L = 3 ∧
      (setProductStock stShirt1234 "shirt" smS5 true).1 Size.XL = 4 := by
  have h := setProductStock_clamp_preserve stShirt1234 "shirt" smS5 true
    (fun sz => by cases sz <;> decide)
  exact ⟨fun sz => by cases sz <;> decide,
    (h.1 Size.S).trans (by decide), (h.1 Size.M).trans (by decide),
    (h.1 Size.L).trans (by decide), (h.1 Size.XL).trans (by decide)⟩

/-- Counterexample to claim C8 as stated: the size string `"s"` is not one
of the four valid keys `S`, `M`, `L`, `XL`, so the claim predicts
`updateSizeStock` returns false and changes nothing — but the source
upper-cases the key first, so it returns true and decrements `S`
(from 5 to 3 here). -/
theorem updateSizeStock_lowercase_counterexample :
    "s" ∉ (["S", "M", "L", "XL"] : List String) ∧
      (updateSizeStock stAll5 "shirt" "s" (-2) true).1 = true ∧
      ((updateSizeStock stAll5 "shirt" "s" (-2) true).2).stock "shirt" Size.S = 3 :=
  ⟨by decide, by decide, by decide⟩

/-- Claim C8 (amended): `updateSizeStock` succeeds exactly when the
*upper-cased* size string is one of the four valid keys; on success it
stores `max 0 (stored + delta)` at the recognized key of the given
product and changes nothing else; when the key is not recognized it
returns false and the state is returned untouched. -/
theorem updateSizeStock_spec (st : State) (pid : String) (size : String)
    (delta : Int) (ok : Bool) :
    (updateSizeStock st pid size delta ok).1 = (sizeOfString? size).isSome ∧
      (∀ p z, ((updateSizeStock st pid size delta ok).2).stock p z =
        if sizeOfString? size = some z ∧ p = pid then max 0 (st.stock p z + delta)
        else st.stock p z) ∧
      (sizeOfString? size = none → (updateSizeStock st pid size delta ok).2 = st) := by
  refine ⟨?_, ?_, ?_⟩
  · cases hk : sizeOfString? size <;> simp [updateSizeStock, hk]
  · intro p z
    rw [updateSizeStock_stock_eq st pid size delta ok p z]
    cases hk : sizeOfString? size with
    | none =>
        dsimp only
        rw [if_neg fun hc => Option.noConfusion hc.1]
    | some keyz =>
        dsimp only
        by_cases hc : p = pid ∧ z = keyz
        · obtain ⟨hp, hz⟩ := hc
          subst hp
          subst hz
          rw [if_pos ⟨rfl, rfl⟩, if_pos ⟨rfl, rfl⟩]
        · rw [if_neg hc, if_neg fun hcc => hc ⟨hcc.2, (Option.some_inj.mp hcc.1).symm⟩]
  · intro hnone
    simp [updateSizeStock, hnone]

/-- Witness for C8 (amended): the unrecognized key `"xx"` is rejected with
no state change. -/
theorem updateSizeStock_spec_witness :
    sizeOfString? "xx" = none ∧
      (updateSizeStock stAll5 "shirt" "xx" 4 true).1 = false ∧
      (updateSizeStock stAll5 "shirt" "xx" 4 true).2 = stAll5 := by
  have h := updateSizeStock_spec stAll5 "shirt" "xx" 4 true
  refine ⟨by decide, ?_, h.2.2 (by decide)⟩
  rw [h.1]
  decide

/-- Witness for C2: a concrete sequence of a set, an adjust and a reserve,
run from the all-zero state, leaves the checked quantity non-negative. -/
theorem stock_nonneg_after_ops_witness :
    (∀ p z, 0 ≤ stAllZero.stock p z) ∧
      0 ≤ (runOps stAllZero
            [Op.set "shirt" smS5 true,
             Op.adjust "shirt" "S" (-7) true,
             Op.reserve [⟨"shirt", "S", 1⟩] true]).stock "shirt" Size.S :=
  ⟨fun _ _ => le_refl 0,
    stock_nonneg_after_ops
      [Op.set "shirt" smS5 true,
       Op.adjust "shirt" "S" (-7) true,
       Op.reserve [⟨"shirt", "S", 1⟩] true]
      stAllZero (fun _ _ => le_refl 0) "shirt" Size.S⟩

/-- Claim C4 (code bug demonstrated): two database instances are loaded
from the same durable store holding exactly one unit of `(shirt, S)`
(each instance reads the store once, at construction), and each then
reserves that last unit.  There is no conditional update or lock, so the
interleaving load-A, load-B, reserve-A, reserve-B makes *both* calls
return `{ ok: true }` — the system oversells — and the last write leaves
the durable stock at 0 after two accepted one-unit orders. -/
theorem concurrent_reserve_oversell :
    (reserveStock sessionA [⟨"shirt", "S", 1⟩] true).1 = ⟨true, none⟩ ∧
      (reserveStock sessionB [⟨"shirt", "S", 1⟩] true).1 = ⟨true, none⟩ ∧
      ((reserveStock sessionB [⟨"shirt", "S", 1⟩] true).2).stockStore "shirt" Size.S = 0 :=
  ⟨by decide, by decide, by decide⟩

/-- Claim C9 (code bug demonstrated): with the backend write failing,
`reserveStock` still returns `{ ok: true }` (the `saveStock` failure
result is ignored, so no distinguishable error reaches the caller), the
in-memory quantity is decremented rather than rolled back, and the
durable store keeps the stale value — memory and durable state diverge. -/
theorem reserveStock_persist_failure_swallowed :
    (reserveStock stAll3 [⟨"shirt", "S", 2⟩] false).1 = ⟨true, none⟩ ∧
      ((reserveStock stAll3 [⟨"shirt", "S", 2⟩] false).2).stock "shirt" Size.S = 1 ∧
      ((reserveStock stAll3 [⟨"shirt", "S", 2⟩] false).2).stockStore "shirt" Size.S = 3 :=
  ⟨by decide, by decide, by decide⟩

/-- Claim C10: starting from an empty collection, after any sequence of
`addPreorder` calls with strictly increasing timestamps,
`getAllPreorders` returns exactly the stored records, sorted in strictly
descending `createdAt` order (most recent first); in particular an empty
collection yields the empty sequence, never an error. -/
theorem getAllPreorders_sorted_desc (st : State) (adds : List AddCall)
    (hempty : st.data = [])
    (hinc : List.Pairwise (fun a b => a.now < b.now) adds) :
    getAllPreorders (runAdds st adds) = (adds.map addedRec).reverse ∧
      List.Pairwise (fun r1 r2 => r2.createdAt < r1.createdAt)
        (getAllPreorders (runAdds st adds)) := by
  have hdata : getAllPreorders (runAdds st adds) = (adds.map addedRec).reverse := by
    rw [getAllPreorders, runAdds_data adds st, hempty, List.append_nil]
  refine ⟨hdata, ?_⟩
  rw [hdata, List.pairwise_reverse]
  exact List.Pairwise.map addedRec (fun a b hab => hab) hinc

/-- Witness for C10: three adds at times 1, 2, 3 from the empty state come
back newest-first, `createdAt` 3, 2, 1. -/
theorem getAllPreorders_sorted_desc_witness :
    stAllZero.data = [] ∧
      List.Pairwise (fun a b => a.now < b.now) adds3 ∧
      getAllPreorders (runAdds stAllZero adds3) = (adds3.map addedRec).reverse ∧
      List.Pairwise (fun r1 r2 => r2.createdAt < r1.createdAt)
        (getAllPreorders (runAdds stAllZero adds3)) ∧
      (getAllPreorders (runAdds stAllZero adds3)).map OrderRec.createdAt = [3, 2, 1] := by
  have h := getAllPreorders_sorted_desc stAllZero adds3 rfl (by decide)
  refine ⟨rfl, by decide, h.1, h.2, ?_⟩
  rw [h.1]
  decide

end GRX
